import Mathlib

/-!
# Verification of the namexif rename-planning engine

This file gives a shallow embedding, in Lean 4, of the rename-planning engine
of the namexif repository (`src/rename.rs`, `src/ui.rs`, `src/main.rs`,
`src/image.rs`), together with theorems settling the frozen claims about it.

The embedding models:

* Rust `std::path::Path` values as lists of parsed components (Rust compares,
  hashes and iterates paths through `Components`, so this is the equality and
  order the source actually uses);
* the filesystem, the EXIF date extractor and the chrono timezone/formatting
  services as explicit oracle functions bundled in an environment record
  (the spec designates them as external collaborators);
* possibly-panicking Rust code (`Option.none` marks a panic) where the claims
  are about panic-freedom;
* the per-run control flow of `try_run` (`src/ui.rs` / `src/main.rs`) as a
  pure function from the plan, the CLI flags and the rename-outcome oracle to
  the run result plus the list of attempted filesystem mutations.
-/

namespace Namexif

/-- A parsed path component, following `std::path::Component` (the `Prefix`
variant is Windows-only and never produced on the platforms the code targets,
so it is omitted).  The derived Rust `Ord` on `Component` orders the variants
in declaration order (`RootDir < CurDir < ParentDir < Normal`), with `Normal`
payloads compared bytewise. -/
inductive Component where
  | rootDir
  | curDir
  | parentDir
  | normal (s : String)
  deriving DecidableEq

/-- Rank of a component in the derived Rust `Ord` (variant declaration
order). -/
def Component.rank : Component → Nat
  | .rootDir => 1
  | .curDir => 2
  | .parentDir => 3
  | .normal _ => 4

/-- Payload of a component: the `Normal` string, empty for the unit-like
variants.  Together with `rank` this determines the component. -/
def Component.payload : Component → String
  | .normal s => s
  | _ => ""

/-- Key used to transport the lexicographic `(rank, payload)` order of the
derived Rust `Ord` onto `Component`. -/
def Component.key (c : Component) : Lex (Nat × String) :=
  toLex (c.rank, c.payload)

theorem Component.key_injective : Function.Injective Component.key := by
  intro a b h
  cases a <;> cases b <;>
    simp only [Component.key, Component.rank, Component.payload, toLex,
      Equiv.refl_apply, Prod.mk.injEq] at h ⊢ <;> simp_all

instance : LinearOrder Component := LinearOrder.lift' Component.key Component.key_injective

/-- A Rust path, identified with its parsed component list.  `PathBuf`
equality, ordering and hashing all go through `Components`, so two paths are
interchangeable in the source exactly when their component lists are equal. -/
abbrev RPath := List Component

/-- Model of `Path::file_name`: the final component when it is a `Normal`
component, `None` otherwise (from `std::path`). -/
def fileName (p : RPath) : Option String :=
  match p.getLast? with
  | some (.normal s) => some s
  | _ => none

/-- Splits a character list at its last dot: returns `(before, after)` for the
last occurrence of a dot, or `none` when there is no dot.  This models the
`rsplitn(2, b'.')` step of `std::path`'s `rsplit_file_at_dot`. -/
def lastDotSplit : List Char → Option (List Char × List Char)
  | [] => none
  | c :: cs =>
    match lastDotSplit cs with
    | some (b, a) => some (c :: b, a)
    | none => if c = '.' then some ([], cs) else none

/-- Model of the extension of a single file name, following
`std::path::Path::extension` via `rsplit_file_at_dot`: the text after the last
dot, except that a name of `..`, a name with no dot, and a name whose only dot
is leading (a hidden file) have no extension. -/
def extensionOfName (name : String) : Option String :=
  if name = ".." then none
  else
    match lastDotSplit name.data with
    | none => none
    | some (b, a) => if b = [] then none else some (String.mk a)

/-- Model of `Path::extension`: the extension of the file name, if any. -/
def extension (p : RPath) : Option String :=
  (fileName p).bind extensionOfName

/-- Model of `Path::parent`: drops the final component; `None` when the path
is empty or consists of the root alone (from `std::path`). -/
def parent (p : RPath) : Option RPath :=
  match p.getLast? with
  | none => none
  | some .rootDir => none
  | some _ => some p.dropLast

/-- Classifies one `/`-separated chunk of a path string in non-initial
position: empty chunks and `.` chunks are normalized away by
`Components`. -/
def classifyTail (part : List Char) : Option Component :=
  if part = [] ∨ part = ['.'] then none
  else if part = ['.', '.'] then some .parentDir
  else some (.normal (String.mk part))

/-- Splits a character list on `/`, keeping empty chunks (the chunk-level
analogue of splitting a path string on its separators). -/
def splitSlashes : List Char → List (List Char)
  | [] => [[]]
  | c :: cs =>
    let r := splitSlashes cs
    if c = '/' then [] :: r
    else
      match r with
      | h :: t => (c :: h) :: t
      | [] => [[c]]

/-- Parses a path string into its component list, following
`std::path::Components`: a leading `/` is the root, a leading `.` is kept,
and empty or interior `.` chunks are normalized away. -/
def parseComponents (s : String) : RPath :=
  match splitSlashes s.data with
  | [] => []
  | first :: rest =>
    let tail := rest.filterMap classifyTail
    if s.data.head? = some '/' then .rootDir :: (first :: rest).filterMap classifyTail
    else
      match first with
      | [] => tail
      | ['.'] => .curDir :: tail
      | ['.', '.'] => .parentDir :: tail
      | cs => .normal (String.mk cs) :: tail

/-- Model of `Path::join` (`PathBuf::push`) with a string argument at the
component level: an absolute argument replaces the path, otherwise the parsed
components of the argument are appended (with a leading `.` of the argument
normalized away when the receiver is nonempty, as `Components` does on the
concatenated string). -/
def pushStr (p : RPath) (s : String) : RPath :=
  let q := parseComponents s
  if q.head? = some .rootDir then q
  else if p.isEmpty then q
  else p ++ (if q.head? = some .curDir then q.tail else q)

/-! ## Error taxonomy (`src/rename.rs`, `src/image.rs`) -/

/-- Benign skip reasons (`SkipError` in `src/rename.rs`). -/
inductive SkipError where
  | directory
  | extension
  | wellNamed
  deriving DecidableEq

/-- Local-time resolution failures (`DateError` in `src/rename.rs`). -/
inductive DateError where
  | invalidLocalDatetime
  | ambiguousLocalDatetime
  deriving DecidableEq

/-- Kind of a tag failure (`TagErrorKind` in `src/image.rs`). -/
inductive TagErrorKind where
  | missing
  | invalid
  deriving DecidableEq

/-- Errors of the exif crate's parsing, as far as `DateTime::from_ascii` and
`atou16` can produce them (the crate is an external collaborator; its error
payloads are irrelevant to the claims). -/
inductive ExifError where
  | blankValue
  | invalidFormat
  | notANumber
  deriving DecidableEq

/-- Image-level failures (`ImageError` in `src/image.rs`).  The `io` payload
(an `io::Error`) is opaque to the claims and modelled as a unit. -/
inductive ImageError where
  | io
  | exif (e : ExifError)
  | tag (kind : TagErrorKind)
  | date (kind : DateError)
  deriving DecidableEq

/-- Per-file planning outcome taxonomy (`RenameError` in `src/rename.rs`). -/
inductive RenameError where
  | image (e : ImageError)
  | skip (s : SkipError)
  | date (d : DateError)
  deriving DecidableEq

/-- Model of `RenameError::should_raise` (`src/rename.rs`): image and date
failures raise the process status, skips never do. -/
def RenameError.should_raise : RenameError → Bool
  | .image _ => true
  | .date _ => true
  | .skip _ => false

/-! ## The chrono collaborators -/

/-- A zone-less capture timestamp (chrono's `NaiveDateTime`, restricted to the
fields the engine reads). -/
structure NaiveDateTime where
  year : Int
  month : Nat
  day : Nat
  hour : Nat
  minute : Nat
  second : Nat
  deriving DecidableEq

/-- An absolute instant in a zone (chrono's `DateTime<Tz>`): the naive local
representation plus a UTC offset.  Only equality matters to the claims. -/
structure ZonedDateTime where
  naive : NaiveDateTime
  offsetSeconds : Int
  deriving DecidableEq

/-- chrono's `LocalResult`: resolving a naive local time in a timezone either
names no instant (a spring-forward gap), a unique instant, or two instants (a
fall-back overlap). -/
inductive LocalResult (α : Type) where
  | notFound
  | single (d : α)
  | ambiguous (early late : α)
  deriving DecidableEq

/-- The external collaborators of the planning engine, bundled: the filesystem
queries, the date extractor (`ImageFile::open` composed with
`ImageFile::get_naive_datetime`, both of which return `ImageError`), the
configured timezone's `from_local_datetime`, and chrono's formatting of an
instant with the configured `name_format` template.  Quantifying over this
record quantifies over every directory snapshot, every timezone and every
format template. -/
structure Env where
  isDir : RPath → Bool
  isFile : RPath → Bool
  getNaive : RPath → Except ImageError NaiveDateTime
  fromLocal : NaiveDateTime → LocalResult ZonedDateTime
  format : ZonedDateTime → String

/-! ## Target Namer (`src/rename.rs`) -/

/-- Canonical JPEG extension and the recognized JPEG spellings
(`JPEG_CANONICAL_EXTENSION`, `JPEG_EXTENSIONS` in `src/rename.rs`). -/
def JPEG_CANONICAL_EXTENSION : String := "jpg"

/-- The fixed JPEG extension list from `src/rename.rs`. -/
def JPEG_EXTENSIONS : List String := [JPEG_CANONICAL_EXTENSION, "JPG", "jpeg", "JPEG"]

/-- Canonical TIFF extension (`TIFF_CANONICAL_EXTENSION` in `src/rename.rs`). -/
def TIFF_CANONICAL_EXTENSION : String := "tiff"

/-- The fixed TIFF extension list from `src/rename.rs`. -/
def TIFF_EXTENSIONS : List String := [TIFF_CANONICAL_EXTENSION, "tif", "TIF", "TIFF"]

/-- Model of `get_target_extension` (`src/rename.rs`): a missing extension is
`Skip(Extension)`; an extension in one of the two fixed lists maps to the
family's canonical extension; anything else is `Skip(Extension)`.  (`OsStr ::
to_str` never fails in the model, where all names are strings.) -/
def get_target_extension (source_path : RPath) : Except RenameError String :=
  match extension source_path with
  | none => .error (.skip .extension)
  | some source_extension =>
    if JPEG_EXTENSIONS.contains source_extension then .ok JPEG_CANONICAL_EXTENSION
    else if TIFF_EXTENSIONS.contains source_extension then .ok TIFF_CANONICAL_EXTENSION
    else .error (.skip .extension)

/-- Model of `get_target_file_stem` (`src/rename.rs`): open the image and read
its naive capture timestamp (failures wrapped as `RenameError::Image`), resolve
it in the configured timezone (`LocalResult::None` is
`Date(InvalidLocalDatetime)`, `LocalResult::Ambiguous` is
`Date(AmbiguousLocalDatetime)`), then format the instant. -/
def get_target_file_stem (env : Env) (source_path : RPath) : Except RenameError String :=
  match env.getNaive source_path with
  | .error e => .error (.image e)
  | .ok naive_datetime =>
    match env.fromLocal naive_datetime with
    | .notFound => .error (.date .invalidLocalDatetime)
    | .single datetime => .ok (env.format datetime)
    | .ambiguous _ _ => .error (.date .ambiguousLocalDatetime)

/-- Model of `get_target_name` (`src/rename.rs`): stem, a dot, then the
canonical extension. -/
def get_target_name (env : Env) (source_path : RPath) : Except RenameError String := do
  let target_extension ← get_target_extension source_path
  let target_file_stem ← get_target_file_stem env source_path
  return target_file_stem ++ "." ++ target_extension

/-- Model of `get_target_path` (`src/rename.rs`).  The source calls
`source_path.parent().unwrap()`; `Option.none` of the outer `Option` marks
that unwrap panicking (`parent` returning `None`), every other outcome is
`Option.some` of the function's `RenameResult`. -/
def get_target_path (env : Env) (source_path : RPath) :
    Option (Except RenameError RPath) :=
  if env.isDir source_path then some (.error (.skip .directory))
  else
    match get_target_name env source_path with
    | .error e => some (.error e)
    | .ok target_name =>
      match parent source_path with
      | none => none
      | some parent_path =>
        if source_path = pushStr parent_path target_name then
          some (.error (.skip .wellNamed))
        else some (.ok (pushStr parent_path target_name))

/-! ## Batch Planner (`src/rename.rs`, `BatchRenamer`) -/

/-- A planned rename (`RenameItem` in `src/rename.rs`). -/
structure RenameItem where
  source_path : RPath
  target_path : RPath
  deriving DecidableEq

/-- Which side of an item collided with an already-seen target (distinguishes
the two log messages of `BatchRenamer::check_items`). -/
inductive ConflictSide where
  | source
  | target
  deriving DecidableEq

/-- One conflict reported by the scan: the overwritten path and the side that
collided. -/
structure Conflict where
  side : ConflictSide
  path : RPath
  deriving DecidableEq

/-- The single forward pass of `BatchRenamer::check_items` (`src/rename.rs`),
with the running `HashSet` of seen target paths made explicit: an item whose
source path is already a seen target reports a Source-side conflict (its
target is not recorded); otherwise an item whose target path is already seen
reports a Target-side conflict (the set is unchanged); otherwise the item's
target path is recorded.  The returned list is every conflict the scan logs,
in scan order. -/
def check_items_scan : List RenameItem → List RPath → List Conflict
  | [], _ => []
  | item :: rest, target_paths =>
    if item.source_path ∈ target_paths then
      ⟨.source, item.source_path⟩ :: check_items_scan rest target_paths
    else if item.target_path ∈ target_paths then
      ⟨.target, item.target_path⟩ :: check_items_scan rest target_paths
    else
      check_items_scan rest (item.target_path :: target_paths)

/-- Model of `BatchRenamer::check_items` (`src/rename.rs`): the conflicts of
the scan started from an empty seen set, paired with the function's
`Result` (`Err(())` exactly when some conflict was reported). -/
def check_items (items : List RenameItem) : List Conflict × Except Unit Unit :=
  let conflicts := check_items_scan items []
  (conflicts, if conflicts.isEmpty then .ok () else .error ())

/-- Model of `BatchRenamer::get_source_paths` (`src/rename.rs`).  The
filesystem answers are explicit: whether the argument is a plain file, and the
result of `fs::read_dir` (a whole-listing error, or one `Result` per entry).
Returns the candidate paths together with the `should_raise` flag the function
sets: a file argument is its own singleton candidate set; a listing failure
raises and yields no candidates; per-entry failures raise but do not abort the
enumeration; the surviving paths are sorted. -/
def get_source_paths (is_file : Bool)
    (read_dir : Except Unit (List (Except Unit RPath))) (source_dir : RPath) :
    List RPath × Bool :=
  if is_file then ([source_dir], false)
  else
    match read_dir with
    | .error _ => ([], true)
    | .ok direntries =>
      let paths := direntries.filterMap fun d =>
        match d with
        | .ok p => some p
        | .error _ => none
      let raised := direntries.any fun d =>
        match d with
        | .ok _ => false
        | .error _ => true
      (paths.insertionSort (· ≤ ·), raised)

/-- Model of `BatchRenamer::get_item` (`src/rename.rs`): a resolved target
path becomes a `RenameItem`; a planning error is logged and collapses to its
`should_raise` bit.  The outer `Option` propagates a panic of
`get_target_path`. -/
def get_item (env : Env) (source_path : RPath) : Option (Except Bool RenameItem) :=
  (get_target_path env source_path).map fun r =>
    match r with
    | .ok target_path => .ok ⟨source_path, target_path⟩
    | .error err => .error err.should_raise

/-- Model of `BatchRenamer::get_items` (`src/rename.rs`): the sorted candidate
paths are classified independently (the rayon `par_iter ... collect` keeps
index order, so the parallel map is a `List.map`), then errors are filtered
out, raising when some error's `should_raise` bit was set.  A panic in any
classification (outer `Option.none`) is a panic of the whole run. -/
def get_items (env : Env) (is_file : Bool)
    (read_dir : Except Unit (List (Except Unit RPath))) (source_dir : RPath) :
    Option (List RenameItem × Bool) :=
  let sp := get_source_paths is_file read_dir source_dir
  let results := sp.1.map (get_item env)
  if results.any Option.isNone then none
  else
    some
      (results.filterMap fun r? =>
        match r? with
        | some (.ok item) => some item
        | _ => none,
       sp.2 || results.any fun r? =>
        match r? with
        | some (.error b) => b
        | _ => false)

/-! ## The run driver (`try_run` in `src/ui.rs` and `src/main.rs`)

The current iteration of the program plans through a `Renames` value
(`rename::get_renames`) whose module is not among the source files; only its
callers are.  `try_run` consumes it through three operations: iterating the
ordered `(source, Result<target, Error>)` pairs, `len`, and `conflicts()`.
The spec (sections 3 and 4.2) fixes what those must be: the pairs are the
ordered plan, and `conflicts()` is the single forward scan over the
successfully-planned items — the very scan `BatchRenamer::check_items`
implements. -/

/-- Per-file planning error of the current iteration's `rename::Error`, as
matched by `try_run`: a benign `Skip` or a counted `Image` failure.  The
payloads are only displayed, so they are opaque strings here. -/
inductive PlanError where
  | skip (reason : String)
  | image (reason : String)
  deriving DecidableEq

/-- One entry of the ordered plan: a source path and its planning outcome. -/
abbrev PlanItem := RPath × Except PlanError RPath

/-- The successfully-planned `(source, target)` pairs of a plan, in plan
order: the `paths` vector `try_run` builds while logging skips and counting
image errors. -/
def okPairs (renames : List PlanItem) : List (RPath × RPath) :=
  renames.filterMap fun pr =>
    match pr.2 with
    | .ok target_path => some (pr.1, target_path)
    | .error _ => none

/-- The number of `Image` planning errors in a plan: what `try_run`'s first
loop adds to its `errors` counter. -/
def imageErrorCount (renames : List PlanItem) : Nat :=
  renames.countP fun pr =>
    match pr.2 with
    | .error (.image _) => true
    | _ => false

/-- Modelled from the spec: `Renames::conflicts` of the current iteration's
`rename` module, which is not among the source files.  Spec section 4.2: a
single forward pass over the ordered successfully-planned items, maintaining a
set of already-seen target paths; this is the scan `BatchRenamer::check_items`
implements, applied to the items the plan resolved to a target. -/
def renamesConflicts (renames : List PlanItem) : List Conflict :=
  check_items_scan ((okPairs renames).map fun pr => ⟨pr.1, pr.2⟩) []

/-- Fatal error of the run (`Error` in `src/main.rs`; `src/ui.rs` adds only a
logger-initialization variant): an I/O failure enumerating the source, or the
number of detected conflicts. -/
inductive UiError where
  | io
  | conflicts (n : Nat)
  deriving DecidableEq

/-- The rename loop of `try_run`: each pair is passed to `fs::rename`
unconditionally; a failure (as decided by the filesystem oracle
`rename_fails`) increments `errors`, a success increments `renamed`.
Iteration never stops early. -/
def apply_loop (paths : List (RPath × RPath)) (rename_fails : RPath → RPath → Bool) :
    Nat × Nat :=
  paths.foldl
    (fun acc pr => if rename_fails pr.1 pr.2 then (acc.1, acc.2 + 1) else (acc.1 + 1, acc.2))
    (0, 0)

/-- Model of `try_run` (`src/ui.rs` lines 133-196, identically
`src/main.rs` lines 145-207).  Inputs: the result of `get_renames` (an
enumeration I/O failure or the ordered plan), the `dry_run` and `assume_yes`
flags, the answer the confirmation prompt would produce, and the filesystem
oracle deciding which individual renames fail.  Terminal I/O (logging, path
display, the prompt itself) is an excluded collaborator and modelled as
infallible.  Output: the run result (`Err` or the `(renamed, errors)` pair)
together with the list of `fs::rename` calls issued, in order — the
filesystem mutations of the run. -/
def try_run (get_renames : Except Unit (List PlanItem))
    (dry_run assume_yes confirm : Bool) (rename_fails : RPath → RPath → Bool) :
    Except UiError (Nat × Nat) × List (RPath × RPath) :=
  match get_renames with
  | .error _ => (.error .io, [])
  | .ok renames =>
    let paths := okPairs renames
    let errors := imageErrorCount renames
    let conflicts := (renamesConflicts renames).length
    if 0 < conflicts then (.error (.conflicts conflicts), [])
    else if !paths.isEmpty && !dry_run && (assume_yes || confirm) then
      let counts := apply_loop paths rename_fails
      (.ok (counts.1, errors + counts.2), paths)
    else (.ok (0, errors), [])

/-! ## Date extraction (`src/image.rs`)

`ImageFile::get_naive_datetime_with` reads the `DateTimeOriginal` field,
parses it with the exif crate's `DateTime::from_ascii`, and then builds a
chrono value with `NaiveDate::from_ymd(..).and_hms(..)`.  Both chrono
constructors are the panicking variants: they abort on out-of-range
components instead of returning a typed failure.  The embedding keeps that
panic as `Option.none`. -/

/-- The value of an EXIF field, as matched by `get_exif_datetime_with`:
an ASCII value (a vector of byte strings) or anything else. -/
inductive ExifValue where
  | ascii (vs : List String)
  | other
  deriving DecidableEq

/-- The exif crate's parsed `DateTime` (fields are `u16`/`u8`; the values the
engine reads are bare numbers). -/
structure ExifDateTime where
  year : Nat
  month : Nat
  day : Nat
  hour : Nat
  minute : Nat
  second : Nat
  deriving DecidableEq

/-- The exif crate's `atou16`: a nonempty all-digit string parses as a
decimal number, anything else is an error.  (Modelled from the exif crate, an
external collaborator.) -/
def atou16 (s : String) : Except ExifError Nat :=
  if s.data = [] then .error .notANumber
  else if s.data.all Char.isDigit then
    .ok (s.data.foldl (fun n c => n * 10 + (c.toNat - 48)) 0)
  else .error .notANumber

/-- Character at a byte position of an all-ASCII string (list position in the
model). -/
def charAt (s : String) (i : Nat) : Option Char := s.data.get? i

/-- A slice `[a, b)` of an all-ASCII string. -/
def sliceStr (s : String) (a b : Nat) : String :=
  String.mk ((s.data.drop a).take (b - a))

/-- The exif crate's `DateTime::from_ascii` (modelled from the exif crate, an
external collaborator): after a blank check and a delimiter-shape check on
`"YYYY:MM:DD HH:MM:SS"`, the six numeric fields are parsed with `atou16`.
No calendar-range validation is performed — `month` 13 or `hour` 99 parse
successfully. -/
def exifDateTimeFromAscii (s : String) : Except ExifError ExifDateTime :=
  if s = "    :  :     :  :  " ∨ s = "                   " then .error .blankValue
  else if s.data.length < 19 then .error .invalidFormat
  else if ¬(charAt s 4 = some ':' ∧ charAt s 7 = some ':' ∧ charAt s 10 = some ' ' ∧
            charAt s 13 = some ':' ∧ charAt s 16 = some ':') then
    .error .invalidFormat
  else do
    let y ← atou16 (sliceStr s 0 4)
    let mo ← atou16 (sliceStr s 5 7)
    let d ← atou16 (sliceStr s 8 10)
    let h ← atou16 (sliceStr s 11 13)
    let mi ← atou16 (sliceStr s 14 16)
    let se ← atou16 (sliceStr s 17 19)
    return ⟨y, mo, d, h, mi, se⟩

/-- Proleptic-Gregorian leap-year rule, as chrono implements it. -/
def isLeapYear (y : Int) : Bool :=
  y % 4 = 0 && (y % 100 ≠ 0 || y % 400 = 0)

/-- Days in a month of a year (chrono's calendar arithmetic). -/
def daysInMonth (y : Int) (m : Nat) : Nat :=
  if m = 1 then 31
  else if m = 2 then if isLeapYear y then 29 else 28
  else if m = 3 then 31
  else if m = 4 then 30
  else if m = 5 then 31
  else if m = 6 then 30
  else if m = 7 then 31
  else if m = 8 then 31
  else if m = 9 then 30
  else if m = 10 then 31
  else if m = 11 then 30
  else if m = 12 then 31
  else 0

/-- chrono's `NaiveDate::from_ymd_opt` validity (for the `u16` years the EXIF
parser can produce, chrono's internal year bound never fails): the month must
be 1..=12 and the day 1..=days-in-month.  `from_ymd` panics exactly when this
returns `none`. -/
def fromYmdOpt (y : Int) (m d : Nat) : Option (Int × Nat × Nat) :=
  if 1 ≤ m ∧ m ≤ 12 ∧ 1 ≤ d ∧ d ≤ daysInMonth y m then some (y, m, d) else none

/-- chrono's `NaiveDate::and_hms_opt` validity: hour 0..=23, minute and second
0..=59.  `and_hms` panics exactly when this returns `none`. -/
def andHmsOpt (ymd : Int × Nat × Nat) (h mi s : Nat) : Option NaiveDateTime :=
  if h ≤ 23 ∧ mi ≤ 59 ∧ s ≤ 59 then
    some ⟨ymd.1, ymd.2.1, ymd.2.2, h, mi, s⟩
  else none

/-- Model of `ImageFile::get_exif_field` (`src/image.rs`): a missing field is
`Tag(Missing)`.  The reader's answer for the requested tag is the explicit
input. -/
def get_exif_field (field : Option ExifValue) : Except ImageError ExifValue :=
  match field with
  | none => .error (.tag .missing)
  | some v => .ok v

/-- Model of `ImageFile::get_exif_datetime_with` (`src/image.rs`): a nonempty
ASCII value is parsed with the exif crate's `DateTime::from_ascii` (its errors
wrapped as `ImageError::Exif`); any other value shape is `Tag(Invalid)`. -/
def get_exif_datetime_with (field : Option ExifValue) : Except ImageError ExifDateTime := do
  let v ← get_exif_field field
  match v with
  | .ascii (a :: _) =>
    match exifDateTimeFromAscii a with
    | .ok edt => return edt
    | .error e => .error (.exif e)
  | _ => .error (.tag .invalid)

/-- Model of `ImageFile::get_naive_datetime_with` (`src/image.rs`): builds
the chrono value with the panicking `NaiveDate::from_ymd(..).and_hms(..)`.
`Option.none` marks the panic on out-of-range components; `Option.some`
carries the function's `ImageResult`. -/
def get_naive_datetime_with (field : Option ExifValue) :
    Option (Except ImageError NaiveDateTime) :=
  match get_exif_datetime_with field with
  | .error e => some (.error e)
  | .ok edt =>
    match fromYmdOpt edt.year edt.month edt.day with
    | none => none
    | some date =>
      match andHmsOpt date edt.hour edt.minute edt.second with
      | none => none
      | some ndt => some (.ok ndt)

/-! ## Helper lemmas -/

/-- The rename loop counts exactly the failing pairs as errors and exactly the
non-failing pairs as successes, starting from any accumulator. -/
theorem apply_loop_foldl (rename_fails : RPath → RPath → Bool) :
    ∀ (paths : List (RPath × RPath)) (acc : Nat × Nat),
      paths.foldl
        (fun acc pr => if rename_fails pr.1 pr.2 then (acc.1, acc.2 + 1) else (acc.1 + 1, acc.2))
        acc =
      (acc.1 + (paths.filter fun pr => !rename_fails pr.1 pr.2).length,
       acc.2 + (paths.filter fun pr => rename_fails pr.1 pr.2).length) := by
  intro paths
  induction paths with
  | nil => simp
  | cons pr rest ih =>
    intro acc
    by_cases h : rename_fails pr.1 pr.2 <;>
      simp [List.foldl_cons, List.filter_cons, h, ih, Nat.add_assoc, Nat.add_comm 1]

/-- Specialization of `apply_loop_foldl` to the zero accumulator. -/
theorem apply_loop_eq (paths : List (RPath × RPath)) (rename_fails : RPath → RPath → Bool) :
    apply_loop paths rename_fails =
      ((paths.filter fun pr => !rename_fails pr.1 pr.2).length,
       (paths.filter fun pr => rename_fails pr.1 pr.2).length) := by
  simp [apply_loop, apply_loop_foldl]

/-- A filter and its complement partition a list's length. -/
theorem length_filter_not_add (l : List (RPath × RPath)) (p : RPath × RPath → Bool) :
    (l.filter fun x => !p x).length + (l.filter p).length = l.length := by
  induction l with
  | nil => rfl
  | cons x xs ih => by_cases h : p x <;> simp [List.filter_cons, h, ← ih] <;> omega

/-- Permutations preserve `List.any`. -/
theorem perm_any {α : Type} {l₁ l₂ : List α} (f : α → Bool) (h : l₁.Perm l₂) :
    l₁.any f = l₂.any f := by
  induction h with
  | nil => rfl
  | cons x _ ih => simp [ih]
  | swap x y l => simp [Bool.or_left_comm]
  | trans _ _ ih₁ ih₂ => rw [ih₁, ih₂]

/-- Sorting with the path order is a function of the input's multiset: two
permuted listings sort to the same list. -/
theorem insertionSort_eq_of_perm {l₁ l₂ : List RPath} (h : l₁.Perm l₂) :
    l₁.insertionSort (· ≤ ·) = l₂.insertionSort (· ≤ ·) := by
  refine List.eq_of_perm_of_sorted ?_ (List.sorted_insertionSort _ l₁)
    (List.sorted_insertionSort _ l₂)
  exact ((List.perm_insertionSort _ l₁).trans h).trans (List.perm_insertionSort _ l₂).symm

/-- A successfully classified item keeps its source path. -/
theorem get_item_source (env : Env) (p : RPath) (item : RenameItem)
    (h : get_item env p = some (.ok item)) : item.source_path = p := by
  unfold get_item at h
  cases hg : get_target_path env p with
  | none => rw [hg] at h; simp [Option.map] at h
  | some r =>
    rw [hg] at h
    cases r with
    | ok t => simp [Option.map] at h; rw [← h]
    | error e => simp [Option.map] at h

/-- The sources of the classified items form a sublist of the candidate
paths. -/
theorem items_sources_sublist (env : Env) :
    ∀ paths : List RPath,
      List.Sublist
        (((paths.map (get_item env)).filterMap fun r? =>
          match r? with
          | some (.ok item) => some item
          | _ => none).map RenameItem.source_path)
        paths := by
  intro paths
  induction paths with
  | nil => simp
  | cons p ps ih =>
    simp only [List.map_cons, List.filterMap_cons]
    cases h : get_item env p with
    | none => exact ih.cons p
    | some r =>
      cases r with
      | ok item =>
        have hs := get_item_source env p item h
        simpa [hs] using ih.cons₂ p
      | error b => exact ih.cons p

/-! ## Claims -/

/-- C1: if the conflict scan over a planned batch reports one or more
conflicts, zero filesystem mutations occur — `try_run` returns the single
`Conflicts(n)` error carrying the number of conflicts and issues no
`fs::rename` call, for every plan, every flag combination and every conflict
count `n ≥ 1`. -/
theorem conflicts_abort_whole_batch (renames : List PlanItem)
    (dry_run assume_yes confirm : Bool) (rename_fails : RPath → RPath → Bool)
    (h : 1 ≤ (renamesConflicts renames).length) :
    try_run (.ok renames) dry_run assume_yes confirm rename_fails =
      (.error (.conflicts (renamesConflicts renames).length), []) := by
  simp only [try_run]
  rw [if_pos (show 0 < (renamesConflicts renames).length from h)]

/-- C1 witness: a two-item plan mapping distinct sources to the same target
has one conflict, and the run aborts with `Conflicts(1)` and no mutation. -/
theorem conflicts_abort_whole_batch_witness :
    try_run
        (.ok [([Component.normal "a.jpg"], .ok [Component.normal "t.jpg"]),
              ([Component.normal "b.jpg"], .ok [Component.normal "t.jpg"])])
        false true true (fun _ _ => false) =
      (.error (.conflicts 1), []) :=
  conflicts_abort_whole_batch _ false true true (fun _ _ => false) (by decide)

/-- Modelled from the spec (section 4.2), stated in the spec's own words: a
single forward pass over the ordered successfully-planned items maintaining a
running set of already-seen target paths; for each item, a source path already
among the seen targets reports a Source-side conflict, else a target path
already among them reports a Target-side conflict, else the target path is
recorded as seen. -/
def spec_conflict_scan (items : List RenameItem) : List Conflict :=
  (items.foldl
    (fun st item =>
      if item.source_path ∈ st.1 then (st.1, st.2 ++ [⟨.source, item.source_path⟩])
      else if item.target_path ∈ st.1 then (st.1, st.2 ++ [⟨.target, item.target_path⟩])
      else (item.target_path :: st.1, st.2))
    ([], [])).2

/-- The spec's fold and the source's recursion agree from any scan state. -/
theorem spec_scan_foldl :
    ∀ (items : List RenameItem) (seen : List RPath) (confs : List Conflict),
      (items.foldl
        (fun st item =>
          if item.source_path ∈ st.1 then (st.1, st.2 ++ [⟨.source, item.source_path⟩])
          else if item.target_path ∈ st.1 then (st.1, st.2 ++ [⟨.target, item.target_path⟩])
          else (item.target_path :: st.1, st.2))
        (seen, confs)).2 = confs ++ check_items_scan items seen := by
  intro items
  induction items with
  | nil => intro seen confs; simp [check_items_scan]
  | cons item rest ih =>
    intro seen confs
    by_cases hs : item.source_path ∈ seen
    · simp [check_items_scan, hs, ih]
    · by_cases ht : item.target_path ∈ seen <;> simp [check_items_scan, hs, ht, ih]

/-- C2: the conflict scan is the spec's single forward pass with a seen-target
set — `BatchRenamer::check_items` returns exactly the spec's conflict list
(and fails exactly when it is nonempty), and the plan-level scan runs over the
successfully-planned items only, skips and errors excluded, reporting every
conflict. -/
theorem conflict_scan_is_spec_scan (items : List RenameItem) (renames : List PlanItem) :
    check_items items =
      (spec_conflict_scan items,
       if (spec_conflict_scan items).isEmpty then Except.ok () else Except.error ())
    ∧ renamesConflicts renames =
      spec_conflict_scan ((okPairs renames).map fun pr => ⟨pr.1, pr.2⟩) := by
  have hspec : ∀ its : List RenameItem, spec_conflict_scan its = check_items_scan its [] := by
    intro its
    simpa using spec_scan_foldl its [] []
  constructor
  · rw [check_items, hspec]
  · rw [renamesConflicts, hspec]

/-- A conflict-free run with `assume_yes` applies every successfully planned
pair: the successes are the pairs the filesystem oracle lets through, the
errors are the image-error count plus the failing pairs, and the attempted
mutations are exactly the planned pairs in order. -/
theorem try_run_ok_no_conflicts (renames : List PlanItem) (confirm : Bool)
    (rename_fails : RPath → RPath → Bool) (h : renamesConflicts renames = []) :
    try_run (.ok renames) false true confirm rename_fails =
      (.ok (((okPairs renames).filter fun pr => !rename_fails pr.1 pr.2).length,
            imageErrorCount renames +
              ((okPairs renames).filter fun pr => rename_fails pr.1 pr.2).length),
       okPairs renames) := by
  have h0 : ¬ 0 < (renamesConflicts renames).length := by simp [h]
  simp only [try_run]
  rw [if_neg h0]
  by_cases hp : (okPairs renames).isEmpty
  · have hnil : okPairs renames = [] := by
      cases he : okPairs renames with
      | nil => rfl
      | cons x xs => rw [he] at hp; simp [List.isEmpty] at hp
    simp [hp, hnil]
  · have hg : (!(okPairs renames).isEmpty && !false && (true || confirm)) = true := by
      simp [hp]
    rw [if_pos hg, apply_loop_eq]

/-- A run over a successfully enumerated plan succeeds exactly when the
conflict scan is empty. -/
theorem try_run_isOk_iff (renames : List PlanItem)
    (dry_run assume_yes confirm : Bool) (rename_fails : RPath → RPath → Bool) :
    (try_run (.ok renames) dry_run assume_yes confirm rename_fails).1.isOk = true ↔
      renamesConflicts renames = [] := by
  constructor
  · intro hok
    by_contra hne
    have hpos : 0 < (renamesConflicts renames).length := List.length_pos.mpr hne
    simp only [try_run] at hok
    rw [if_pos hpos] at hok
    simp [Except.isOk, Except.toBool] at hok
  · intro hnil
    have h0 : ¬ 0 < (renamesConflicts renames).length := by simp [hnil]
    simp only [try_run]
    rw [if_neg h0]
    by_cases hg : (!(okPairs renames).isEmpty && !dry_run && (assume_yes || confirm)) = true
    · rw [if_pos hg]; rfl
    · rw [if_neg hg]; rfl

/-- C3: per-file image failures are accumulated as a count and reported in the
final `(renamed, errors)` pair; they never make the run fatal and never stop
the remaining successfully planned items from being attempted.  The only fatal
outcomes are a directory-enumeration failure and a nonempty conflict scan. -/
theorem per_file_errors_do_not_abort (renames : List PlanItem)
    (dry_run assume_yes confirm : Bool) (rename_fails : RPath → RPath → Bool) :
    try_run (.error ()) dry_run assume_yes confirm rename_fails = (.error .io, [])
    ∧ ((try_run (.ok renames) dry_run assume_yes confirm rename_fails).1.isOk = true ↔
        renamesConflicts renames = [])
    ∧ (renamesConflicts renames = [] →
        try_run (.ok renames) false true confirm rename_fails =
          (.ok (((okPairs renames).filter fun pr => !rename_fails pr.1 pr.2).length,
                imageErrorCount renames +
                  ((okPairs renames).filter fun pr => rename_fails pr.1 pr.2).length),
           okPairs renames)) :=
  ⟨rfl, try_run_isOk_iff renames dry_run assume_yes confirm rename_fails,
    try_run_ok_no_conflicts renames confirm rename_fails⟩

/-- C3 witness: a plan with one image error, one skip and one good item (no
conflicts, nothing failing on disk) ends with one rename and one counted
error — the image error neither aborts the run nor blocks the good item. -/
theorem per_file_errors_do_not_abort_witness :
    try_run
        (.ok [([Component.normal "a.jpg"], .error (PlanError.image "bad tag")),
              ([Component.normal "b.jpg"], .ok [Component.normal "t.jpg"]),
              ([Component.normal "c.txt"], .error (PlanError.skip "not exif"))])
        false true true (fun _ _ => false) =
      (.ok (1, 1), [([Component.normal "b.jpg"], [Component.normal "t.jpg"])]) :=
  (per_file_errors_do_not_abort _ false true true (fun _ _ => false)).2.2 (by decide)

/-- C5: on a conflict-free plan whose `N` items resolved to a target, of which
`K` renames fail, the apply stage produces exactly `N - K` successes and `K`
further errors, and attempts every one of the `N` pairs. -/
theorem apply_stage_partial_failure (renames : List PlanItem) (confirm : Bool)
    (rename_fails : RPath → RPath → Bool) (h : renamesConflicts renames = []) :
    (try_run (.ok renames) false true confirm rename_fails).1 =
      .ok ((okPairs renames).length -
             ((okPairs renames).filter fun pr => rename_fails pr.1 pr.2).length,
           imageErrorCount renames +
             ((okPairs renames).filter fun pr => rename_fails pr.1 pr.2).length)
    ∧ (try_run (.ok renames) false true confirm rename_fails).2 = okPairs renames
    ∧ ((okPairs renames).filter fun pr => rename_fails pr.1 pr.2).length ≤
        (okPairs renames).length := by
  have he := try_run_ok_no_conflicts renames confirm rename_fails h
  have hlen := length_filter_not_add (okPairs renames) fun pr => rename_fails pr.1 pr.2
  refine ⟨?_, by rw [he], by omega⟩
  rw [he]
  have : ((okPairs renames).filter fun pr => !rename_fails pr.1 pr.2).length =
      (okPairs renames).length -
        ((okPairs renames).filter fun pr => rename_fails pr.1 pr.2).length := by omega
  rw [this]

/-- C5 witness: three resolvable items, one failing rename — two successes,
one error, all three attempted. -/
theorem apply_stage_partial_failure_witness :
    (try_run
        (.ok [([Component.normal "a.jpg"], .ok [Component.normal "x.jpg"]),
              ([Component.normal "b.jpg"], .ok [Component.normal "y.jpg"]),
              ([Component.normal "c.jpg"], .ok [Component.normal "z.jpg"])])
        false true true (fun s _ => s = [Component.normal "b.jpg"])).1 =
      .ok (2, 1) := by
  have h := apply_stage_partial_failure
    [([Component.normal "a.jpg"], .ok [Component.normal "x.jpg"]),
     ([Component.normal "b.jpg"], .ok [Component.normal "y.jpg"]),
     ([Component.normal "c.jpg"], .ok [Component.normal "z.jpg"])]
    true (fun s _ => decide (s = [Component.normal "b.jpg"])) (by decide)
  simpa using h.1

/-- The candidate list produced by `get_source_paths` is sorted in the path
order, whatever the filesystem answered. -/
theorem get_source_paths_sorted (is_file : Bool)
    (read_dir : Except Unit (List (Except Unit RPath))) (source_dir : RPath) :
    ((get_source_paths is_file read_dir source_dir).1).Sorted (· ≤ ·) := by
  unfold get_source_paths
  by_cases hf : is_file
  · simp [hf]
  · cases read_dir with
    | error e => simp [hf]
    | ok l => simpa [hf] using List.sorted_insertionSort (α := RPath) (· ≤ ·) _

/-- C4: the plan's item order is lexicographic (sorted) by source path, and
planning is a function of the directory snapshot as a set — two
directory listings that are permutations of each other (and a fortiori the
same listing read twice) produce an identical plan and an identical conflict
scan result. -/
theorem plan_sorted_and_listing_order_independent (env : Env) (is_file : Bool)
    (source_dir : RPath) (l₁ l₂ : List (Except Unit RPath)) (hperm : l₁.Perm l₂) :
    get_items env is_file (.ok l₁) source_dir = get_items env is_file (.ok l₂) source_dir
    ∧ (∀ items raised, get_items env is_file (.ok l₁) source_dir = some (items, raised) →
        (items.map RenameItem.source_path).Sorted (· ≤ ·))
    ∧ ((get_items env is_file (.ok l₁) source_dir).map fun pr => check_items pr.1) =
        ((get_items env is_file (.ok l₂) source_dir).map fun pr => check_items pr.1) := by
  have hsp : get_source_paths is_file (.ok l₁) source_dir =
      get_source_paths is_file (.ok l₂) source_dir := by
    unfold get_source_paths
    by_cases hf : is_file
    · simp [hf]
    · have hfm : (l₁.filterMap fun d =>
          match d with
          | .ok p => some p
          | .error _ => none).Perm
          (l₂.filterMap fun d =>
          match d with
          | .ok p => some p
          | .error _ => none) := hperm.filterMap _
      have hany := perm_any
        (fun d : Except Unit RPath =>
          match d with
          | .ok _ => false
          | .error _ => true) hperm
      simp [hf, insertionSort_eq_of_perm hfm, hany]
  have heq : get_items env is_file (.ok l₁) source_dir =
      get_items env is_file (.ok l₂) source_dir := by
    unfold get_items
    rw [hsp]
  refine ⟨heq, ?_, by rw [heq]⟩
  intro items raised hsome
  simp only [get_items] at hsome
  split at hsome
  · exact absurd hsome (by simp)
  · have hitems : items =
        (((get_source_paths is_file (.ok l₁) source_dir).1.map (get_item env)).filterMap
          fun r? =>
            match r? with
            | some (.ok item) => some item
            | _ => none) := by
      injection hsome with h1
      injection h1 with h2 h3
      exact h2.symm
    rw [hitems]
    exact (get_source_paths_sorted is_file (.ok l₁) source_dir).sublist
      (items_sources_sublist env _)

/-- C4 witness: a two-entry listing and its swap classify to the same plan. -/
theorem plan_sorted_witness :
    get_items
        ⟨fun _ => false, fun _ => false, fun _ => .error .io, fun _ => .notFound, fun _ => ""⟩
        false (.ok [.ok [Component.normal "b.jpg"], .ok [Component.normal "a.jpg"]]) [] =
      get_items
        ⟨fun _ => false, fun _ => false, fun _ => .error .io, fun _ => .notFound, fun _ => ""⟩
        false (.ok [.ok [Component.normal "a.jpg"], .ok [Component.normal "b.jpg"]]) [] :=
  (plan_sorted_and_listing_order_independent _ false [] _ _ (List.Perm.swap _ _ _)).1

deriving instance DecidableEq for Except

/-- C6: resolving the extracted naive timestamp in the configured timezone has
exactly three outcomes — a unique instant formats successfully, a
spring-forward gap is `Date(InvalidLocalDatetime)`, and a fall-back overlap is
`Date(AmbiguousLocalDatetime)`; an ambiguous resolution is never silently
collapsed to one of its two instants, for every timestamp and every
timezone. -/
theorem zone_resolution_three_outcomes (env : Env) (p : RPath) (nd : NaiveDateTime)
    (h : env.getNaive p = .ok nd) :
    (env.fromLocal nd = .notFound →
      get_target_file_stem env p = .error (.date .invalidLocalDatetime))
    ∧ (∀ d, env.fromLocal nd = .single d →
        get_target_file_stem env p = .ok (env.format d))
    ∧ (∀ d₁ d₂, env.fromLocal nd = .ambiguous d₁ d₂ →
        get_target_file_stem env p = .error (.date .ambiguousLocalDatetime)) := by
  have hbase : get_target_file_stem env p =
      match env.fromLocal nd with
      | .notFound => .error (.date .invalidLocalDatetime)
      | .single d => .ok (env.format d)
      | .ambiguous _ _ => .error (.date .ambiguousLocalDatetime) := by
    unfold get_target_file_stem
    rw [h]
  refine ⟨fun hf => ?_, fun d hf => ?_, fun d₁ d₂ hf => ?_⟩ <;> rw [hbase, hf]

/-- C6 witness: a timezone oracle answering with a fall-back overlap makes the
stem computation fail with `AmbiguousLocalDatetime` rather than formatting
either instant. -/
theorem zone_resolution_three_outcomes_witness :
    get_target_file_stem
        ⟨fun _ => false, fun _ => false, fun _ => .ok ⟨2020, 10, 25, 2, 30, 0⟩,
         fun _ => .ambiguous ⟨⟨2020, 10, 25, 2, 30, 0⟩, 7200⟩ ⟨⟨2020, 10, 25, 2, 30, 0⟩, 3600⟩,
         fun _ => ""⟩
        [Component.normal "a.jpg"] =
      .error (.date .ambiguousLocalDatetime) :=
  (zone_resolution_three_outcomes _ [Component.normal "a.jpg"] ⟨2020, 10, 25, 2, 30, 0⟩
    rfl).2.2 _ _ rfl

/-- Modelled from the spec's words (section 4.1, for stating C7 only): ASCII
case-insensitive equality of extension strings. -/
def specCaseInsensitiveEq (a b : String) : Bool :=
  a.data.map Char.toLower == b.data.map Char.toLower

/-- C7 counterexample: `"Jpg"` is case-insensitively equal to `"jpg"`, yet
`get_target_extension` classifies `a.Jpg` as `Skip(Extension)` — the match is
against the four fixed spellings, not case-insensitive. -/
theorem extension_match_not_case_insensitive :
    specCaseInsensitiveEq "Jpg" "jpg" = true ∧
    get_target_extension [Component.normal "a.Jpg"] = .error (.skip .extension) := by
  constructor
  · decide
  · decide

/-- C7 (amended): the extension check matches the source extension against the
fixed spelling lists — any extension in `{jpg, JPG, jpeg, JPEG}` maps to
canonical `"jpg"`, any in `{tiff, tif, TIF, TIFF}` maps to canonical
`"tiff"`, and an absent extension or one outside both lists (including
mixed-case spellings such as `"Jpg"`) yields `Skip(Extension)`. -/
theorem extension_fixed_sets (p : RPath) :
    (∀ e, extension p = some e → e ∈ JPEG_EXTENSIONS →
        get_target_extension p = .ok JPEG_CANONICAL_EXTENSION)
    ∧ (∀ e, extension p = some e → e ∈ TIFF_EXTENSIONS →
        get_target_extension p = .ok TIFF_CANONICAL_EXTENSION)
    ∧ (extension p = none → get_target_extension p = .error (.skip .extension))
    ∧ (∀ e, extension p = some e → e ∉ JPEG_EXTENSIONS → e ∉ TIFF_EXTENSIONS →
        get_target_extension p = .error (.skip .extension)) := by
  have hmem : ∀ (l : List String) (e : String), e ∈ l → l.contains e = true :=
    fun l e h => by simpa using h
  have hnmem : ∀ (l : List String) (e : String), e ∉ l → ¬ l.contains e = true :=
    fun l e h => by simpa using h
  refine ⟨?_, ?_, ?_, ?_⟩
  · intro e hx he
    simp only [get_target_extension, hx]
    rw [if_pos (hmem _ _ he)]
  · intro e hx he
    have hnj : e ∉ JPEG_EXTENSIONS := by
      have he' : e = "tiff" ∨ e = "tif" ∨ e = "TIF" ∨ e = "TIFF" := by
        simpa [TIFF_EXTENSIONS, TIFF_CANONICAL_EXTENSION] using he
      rcases he' with h | h | h | h <;> subst h <;> decide
    simp only [get_target_extension, hx]
    rw [if_neg (hnmem _ _ hnj), if_pos (hmem _ _ he)]
  · intro hx
    simp only [get_target_extension, hx]
  · intro e hx hnj hnt
    simp only [get_target_extension, hx]
    rw [if_neg (hnmem _ _ hnj), if_neg (hnmem _ _ hnt)]

/-- C7 amended-claim witness: `b.TIF` maps to the canonical `"tiff"`. -/
theorem extension_fixed_sets_witness :
    get_target_extension [Component.normal "b.TIF"] = .ok "tiff" :=
  (extension_fixed_sets [Component.normal "b.TIF"]).2.1 "TIF" (by decide) (by decide)

/-- C8: no plan item ever renames a file onto itself — a rename is emitted
only when the computed target differs from the source, and a computed target
equal to the source is reclassified as `Skip(WellNamed)`. -/
theorem no_self_rename (env : Env) (p : RPath) :
    (∀ t, get_target_path env p = some (.ok t) → t ≠ p)
    ∧ (∀ nm pp, env.isDir p = false → get_target_name env p = .ok nm →
        parent p = some pp → pushStr pp nm = p →
        get_target_path env p = some (.error (.skip .wellNamed))) := by
  constructor
  · intro t hsome
    unfold get_target_path at hsome
    by_cases hd : env.isDir p
    · rw [if_pos hd] at hsome
      simp at hsome
    · rw [if_neg hd] at hsome
      cases hn : get_target_name env p with
      | error e =>
        rw [hn] at hsome
        simp at hsome
      | ok nm =>
        rw [hn] at hsome
        cases hp : parent p with
        | none =>
          rw [hp] at hsome
          simp at hsome
        | some pp =>
          rw [hp] at hsome
          dsimp only at hsome
          by_cases heq : p = pushStr pp nm
          · rw [if_pos heq] at hsome
            simp at hsome
          · rw [if_neg heq] at hsome
            simp only [Option.some.injEq, Except.ok.injEq] at hsome
            intro hc
            exact heq ((hc ▸ hsome).symm)
  · intro nm pp hd hn hp hpush
    unfold get_target_path
    rw [if_neg (by simp [hd]), hn, hp]
    dsimp only
    rw [if_pos hpush.symm]

/-- A sample environment in which every classification step succeeds: no path
is a directory, every image carries the capture timestamp
2020-01-01 10:00:00, the timezone resolves it uniquely, and the template
formats it as `2020-01-01`. -/
def sampleEnv : Env :=
  ⟨fun _ => false, fun _ => false, fun _ => .ok ⟨2020, 1, 1, 10, 0, 0⟩,
   fun _ => .single ⟨⟨2020, 1, 1, 10, 0, 0⟩, 0⟩, fun _ => "2020-01-01"⟩

/-- C8 witness: `a.jpg` plans to the sibling `2020-01-01.jpg`, which is
distinct from the source. -/
theorem no_self_rename_witness :
    get_target_path sampleEnv [Component.normal "a.jpg"] =
      some (.ok [Component.normal "2020-01-01.jpg"]) ∧
    [Component.normal "2020-01-01.jpg"] ≠ [Component.normal "a.jpg"] :=
  ⟨rfl, (no_self_rename sampleEnv [Component.normal "a.jpg"]).1 _ rfl⟩

/-- C9: evaluating the date extractor at a present but calendar-malformed
`DateTimeOriginal` tag.  The exif layer parses `2020:13:01 00:00:00` (month
13) without range validation, and the chrono constructor call
`NaiveDate::from_ymd(..).and_hms(..)` then panics — modelled as `none` — so
extraction is not total as the spec requires. -/
theorem date_extraction_panic_on_malformed_tag :
    get_naive_datetime_with (some (.ascii ["2020:13:01 00:00:00"])) = none ∧
    get_exif_datetime_with (some (.ascii ["2020:13:01 00:00:00"])) =
      .ok ⟨2020, 13, 1, 0, 0, 0⟩ := by
  constructor
  · decide
  · decide

/-- C10: a path with an extension always has a parent (possibly the empty
path), so the `source_path.parent().unwrap()` in `get_target_path` is
unreachable as a panic: the function never panics, for any environment and
any path. -/
theorem parent_unwrap_unreachable (env : Env) (p : RPath) :
    ((extension p).isSome = true → (parent p).isSome = true)
    ∧ get_target_path env p ≠ none := by
  have hpar : (extension p).isSome = true → (parent p).isSome = true := by
    intro hx
    cases hfn : fileName p with
    | none => rw [extension, hfn] at hx; simp at hx
    | some s =>
      unfold fileName at hfn
      cases hl : p.getLast? with
      | none => rw [hl] at hfn; simp at hfn
      | some c =>
        rw [hl] at hfn
        cases c with
        | rootDir => simp at hfn
        | curDir => simp at hfn
        | parentDir => simp at hfn
        | normal s' =>
          unfold parent
          rw [hl]
          rfl
  refine ⟨hpar, ?_⟩
  intro hnone
  unfold get_target_path at hnone
  by_cases hd : env.isDir p
  · rw [if_pos hd] at hnone
    simp at hnone
  · rw [if_neg hd] at hnone
    cases hn : get_target_name env p with
    | error e => rw [hn] at hnone; simp at hnone
    | ok nm =>
      rw [hn] at hnone
      have hext : (extension p).isSome = true := by
        cases hx : extension p with
        | some e => rfl
        | none =>
          rw [get_target_name] at hn
          simp only [get_target_extension, hx] at hn
          simp [Bind.bind, Except.bind] at hn
      obtain ⟨pp, hpp⟩ := Option.isSome_iff_exists.mp (hpar hext)
      rw [hpp] at hnone
      by_cases heq : p = pushStr pp nm
      · simp [if_pos heq] at hnone
      · simp [if_neg heq] at hnone

/-- C10 witness: `a.jpg` has extension `jpg` and parent the empty path, and
planning it in the sample environment does not panic. -/
theorem parent_unwrap_unreachable_witness :
    (parent [Component.normal "a.jpg"]).isSome = true ∧
    get_target_path sampleEnv [Component.normal "a.jpg"] ≠ none :=
  ⟨(parent_unwrap_unreachable sampleEnv [Component.normal "a.jpg"]).1 (by decide),
   (parent_unwrap_unreachable sampleEnv [Component.normal "a.jpg"]).2⟩

end Namexif
